import Mathlib

/-!
Shallow embedding of the page-granularity allocator core of this repository:
the per-worker `pageCache` (alloc / allocN / flush), the central `pageAlloc`
refill operation `allocToCache`, and the fixed-size slab allocator `fixalloc`
(init / alloc / free).  Machine words (`uint64`, `uintptr`) are embedded as
`Nat`; every operation that Go performs on a 64-bit word is written with an
explicit `% 2 ^ 64` or with masks of width 64, so that a bitmap value below
`2 ^ 64` behaves exactly as its `uint64` counterpart.  Address arithmetic on
`uintptr` carries `% 2 ^ 64` where Go can wrap.
-/

set_option exponentiation.threshold 1000
set_option maxRecDepth 40000

/-- Size in bytes of one page (8 KiB, the value of `pageSize` in the runtime). -/
def pageSize : Nat := 8192

/-- Number of pages a `pageCache` covers: 8 * sizeof(uint64) = 64. -/
def pageCachePages : Nat := 64

/-- Pages per chunk of the central allocator bitmap (512 on 64-bit targets). -/
def pallocChunkPages : Nat := 512

/-- Bytes per chunk: `pallocChunkPages * pageSize`. -/
def pallocChunkBytes : Nat := pallocChunkPages * pageSize

/-- One beyond the largest `uint64` value. -/
def word64 : Nat := 2 ^ 64

/-- The all-ones 64-bit word. -/
def mask64 : Nat := 2 ^ 64 - 1

/-- The all-ones 512-bit chunk bitmap. -/
def maskChunk : Nat := 2 ^ 512 - 1

/-- The Go operation `x &^ y` on `uint64`: clear in `x` every bit set in `y`.
For `x y < 2 ^ 64` this agrees with bitwise difference. -/
def andNot64 (x y : Nat) : Nat := x &&& (mask64 ^^^ y)

/-- The Go operation `x &^ y` on a 512-bit chunk bitmap. -/
def andNotChunk (x y : Nat) : Nat := x &&& (maskChunk ^^^ y)

/-- Linear scan for the first index `i ≤ j < i + fuel` with `p j = true`;
returns `i + fuel` when there is none.  Helper used to embed the bitmap
searches of the runtime as executable functions. -/
def scanIdx (p : Nat → Bool) : Nat → Nat → Nat
  | i, 0 => i
  | i, fuel+1 => if p i then i else scanIdx p (i+1) fuel

/-- Modelled from the spec: `sys.TrailingZeros64` (not under src; the spec
calls it the "trailing-zero scan" giving "the lowest set bit"): index of the
lowest set bit of a 64-bit word, 64 when the word is zero. -/
def trailingZeros64 (x : Nat) : Nat := scanIdx (fun i => x.testBit i) 0 64

/-- Modelled from the spec: `findBitRange64` (runtime/mpallocbits.go, not
under src): "finds the lowest-indexed run of `n` consecutive free bits within
the 64-bit bitmap (fails if none exists)"; 64 signals failure. -/
def findBitRange64 (c : Nat) (n : Nat) : Nat :=
  scanIdx (fun i => decide (i + n ≤ 64) && (List.range n).all (fun j => c.testBit (i + j))) 0 64

/-- Modelled from the spec: `sys.OnesCount64` (not under src): population
count of a 64-bit word. -/
def onesCount64 (x : Nat) : Nat := ((List.range 64).filter (fun i => x.testBit i)).length

/-- Modelled from the spec: `alignDown` (not under src): round down to a
multiple of `a`. -/
def alignDown (x a : Nat) : Nat := x / a * a

/-- Per-worker page cache (src/unnamed/part_000): base address, a 64-bit free
bitmap (1 = free) and a 64-bit scavenged bitmap (1 = scavenged). -/
structure pageCache where
  base : Nat
  cache : Nat
  scav : Nat
deriving DecidableEq, Repr

/-- pageCache.empty: the cache has no free pages. -/
def pageCache.empty (c : pageCache) : Bool := c.cache == 0

/-- pageCache.allocN (src/unnamed/part_000 lines 61-71): allocate a run of
`npages` pages from the cache; returns (address, scavenged bytes, new cache). -/
def pageCache.allocN (c : pageCache) (npages : Nat) : Nat × Nat × pageCache :=
  let i := findBitRange64 c.cache npages
  if 64 ≤ i then (0, 0, c)
  else
    let mask := ((1 <<< npages) - 1) <<< i
    let scav := onesCount64 (c.scav &&& mask)
    ((c.base + i * pageSize) % word64, scav * pageSize,
      { c with cache := andNot64 c.cache mask, scav := andNot64 c.scav mask })

/-- pageCache.alloc (src/unnamed/part_000 lines 40-52): main allocation entry
point; returns (address, scavenged bytes, new cache), address 0 on failure. -/
def pageCache.alloc (c : pageCache) (npages : Nat) : Nat × Nat × pageCache :=
  if c.cache = 0 then (0, 0, c)
  else if npages = 1 then
    let i := trailingZeros64 c.cache
    let scav := (c.scav >>> i) &&& 1
    ((c.base + i * pageSize) % word64, scav * pageSize,
      { c with cache := andNot64 c.cache (1 <<< i), scav := andNot64 c.scav (1 <<< i) })
  else c.allocN npages

/-- Chunk index of an address (`chunkIndex`, modelled from the spec with a
zero arena base offset: address divided by the chunk byte size). -/
def chunkIndex (a : Nat) : Nat := a / pallocChunkBytes

/-- Base address of a chunk (`chunkBase`). -/
def chunkBase (ci : Nat) : Nat := ci * pallocChunkBytes

/-- Page index of an address within its chunk (`chunkPageIndex`). -/
def chunkPageIndex (a : Nat) : Nat := a % pallocChunkBytes / pageSize

/-- Modelled from the spec: per-chunk data (`pallocData`, not under src): the
512-bit allocation bitmap (`pallocBits`, 1 = in-use, so that the cache
construction in src takes its complement to get free pages) and the 512-bit
scavenged bitmap (1 = scavenged). -/
structure pallocData where
  pallocBits : Nat
  scavenged : Nat
deriving DecidableEq, Repr

/-- Modelled from the spec: `pallocBits.pages64(i)` (not under src): the
64-bit word of the bitmap holding bit `i`, aligned down to a 64-bit boundary. -/
def pages64 (bm : Nat) (i : Nat) : Nat := (bm >>> alignDown i 64) % word64

/-- Modelled from the spec: `pallocBits.block64(i)` (not under src): same
aligned 64-bit read, used on the scavenged bitmap. -/
def block64 (bm : Nat) (i : Nat) : Nat := (bm >>> alignDown i 64) % word64

/-- Modelled from the spec: `pallocBits.allocPages64(i, alloc)` (not under
src): set as allocated the given 64-bit pattern in the word holding bit `i`. -/
def allocPages64 (bm : Nat) (i : Nat) (alloc : Nat) : Nat :=
  bm ||| ((alloc % word64) <<< alignDown i 64)

/-- Modelled from the spec: `pallocBits.clearBlock64(i, block)` (not under
src): clear the given 64-bit pattern in the word holding bit `i`. -/
def clearBlock64 (bm : Nat) (i : Nat) (block : Nat) : Nat :=
  andNotChunk bm ((block % word64) <<< alignDown i 64)

/-- Modelled from the spec: `pallocBits.free1(i)` (not under src): mark page
`i` free, clearing its in-use bit. -/
def free1 (bm : Nat) (i : Nat) : Nat := andNotChunk bm (1 <<< i)

/-- Modelled from the spec: `pallocBits.setRange(i, 1)` on the scavenged
bitmap (not under src): set bit `i`. -/
def setRange1 (bm : Nat) (i : Nat) : Nat := bm ||| (1 <<< i)

/-- Modelled from the spec: `pallocBits.find(1, sIdx)` (not under src): index
of the lowest free (zero) page bit at or after the 64-bit word containing
`sIdx`; `pallocChunkPages` (= 512) signals failure (the Go code returns the
all-ones sentinel there). -/
def find1 (bm : Nat) (sIdx : Nat) : Nat :=
  scanIdx (fun j => !(bm.testBit j)) (alignDown sIdx 64) (pallocChunkPages - alignDown sIdx 64)

/-- Central page allocator state (`pageAlloc`).  `chunks` maps a chunk index
to its bitmaps; `endIdx` is the exclusive chunk-index bound of the managed
space (`p.end` in Go); `searchAddr` is the search cursor.  The summary tree
is modelled as derived data: the spec requires every summary to "stay
structurally consistent with the bitmap it summarizes after every mutation",
so the leaf summary read in `allocToCache` is recomputed from the chunk
bitmap (`chunkHasFree`) and the `p.update` calls become no-ops. -/
structure pageAlloc where
  chunks : Nat → pallocData
  endIdx : Nat
  searchAddr : Nat

/-- Modelled from the spec: the sentinel "max" search address
(`maxSearchAddr()`, not under src), the top of a 48-bit address space. -/
def maxSearchAddr : Nat := 2 ^ 48 - 1

/-- Leaf summary of a chunk is nonzero exactly when the chunk has a free
page (spec: summaries are consistent with the bitmaps they summarize). -/
def chunkHasFree (d : pallocData) : Bool :=
  (List.range 512).any (fun j => !(d.pallocBits.testBit j))

/-- Point update of the chunk map (`p.chunkOf(ci)` mutation). -/
def setChunk (f : Nat → pallocData) (ci : Nat) (d : pallocData) : Nat → pallocData :=
  fun x => if x = ci then d else f x

/-- Modelled from the spec: `p.find(1)` (not under src): "locates the
lowest-addressed free run of at least `n` pages at or above `searchAddr`",
here for one page, scanning the managed chunks; 0 signals failure. -/
def findOneAddr (p : pageAlloc) : Nat :=
  match (List.range (p.endIdx * pallocChunkPages)).find?
      (fun k => decide (p.searchAddr ≤ k * pageSize) &&
        !((p.chunks (k / pallocChunkPages)).pallocBits.testBit (k % pallocChunkPages))) with
  | some k => k * pageSize
  | none => 0

/-- Common tail of `allocToCache` (src/unnamed/part_000 lines 161-179): mark
the pages covered by the fresh cache as allocated, clear the scavenged bits
that were free-and-scavenged, and advance `searchAddr` to the last page of
the 64-page window. -/
def allocToCacheFinish (p : pageAlloc) (ci : Nat) (c : pageCache) : pageCache × pageAlloc :=
  let chunk := p.chunks ci
  let cpi := chunkPageIndex c.base
  let chunk2 : pallocData :=
    { pallocBits := allocPages64 chunk.pallocBits cpi c.cache,
      scavenged := clearBlock64 chunk.scavenged cpi (c.cache &&& c.scav) }
  (c, { p with chunks := setChunk p.chunks ci chunk2,
               searchAddr := (c.base + pageSize * (pageCachePages - 1)) % word64 })

/-- pageAlloc.allocToCache (src/unnamed/part_000 lines 119-180): acquire a
64-page aligned window of free pages as a `pageCache`.  `none` models the
`throw("bad summary data")` fatal path. -/
def pageAlloc.allocToCache (p : pageAlloc) : Option (pageCache × pageAlloc) :=
  if p.endIdx ≤ chunkIndex p.searchAddr then some (⟨0, 0, 0⟩, p)
  else
    let ci := chunkIndex p.searchAddr
    if chunkHasFree (p.chunks ci) then
      let j := find1 (p.chunks ci).pallocBits (chunkPageIndex p.searchAddr)
      if j < pallocChunkPages then
        let c : pageCache :=
          { base := (chunkBase ci + alignDown j 64 * pageSize) % word64,
            cache := mask64 ^^^ pages64 (p.chunks ci).pallocBits j,
            scav := block64 (p.chunks ci).scavenged j }
        some (allocToCacheFinish p ci c)
      else none
    else
      let addr := findOneAddr p
      if addr = 0 then some (⟨0, 0, 0⟩, { p with searchAddr := maxSearchAddr })
      else
        let ci2 := chunkIndex addr
        let c : pageCache :=
          { base := alignDown addr (64 * pageSize) % word64,
            cache := mask64 ^^^ pages64 (p.chunks ci2).pallocBits (chunkPageIndex addr),
            scav := block64 (p.chunks ci2).scavenged (chunkPageIndex addr) }
        some (allocToCacheFinish p ci2 c)

/-- One iteration of the flush loop (src/unnamed/part_000 lines 93-100):
free page `pi + i` when cache bit `i` is set, and mark it scavenged when
scav bit `i` is set. -/
def flushStep (c : pageCache) (pi : Nat) (bm : Nat × Nat) (i : Nat) : Nat × Nat :=
  (if c.cache.testBit i then free1 bm.1 (pi + i) else bm.1,
   if c.scav.testBit i then setRange1 bm.2 (pi + i) else bm.2)

/-- pageCache.flush (src/unnamed/part_000 lines 82-108): release every free
page of the cache back into the central bitmap, bit by bit, pull
`searchAddr` back to the cache base when lower, and reset the cache.
Returns the (reset) cache and the new central state. -/
def pageCache.flush (c : pageCache) (p : pageAlloc) : pageCache × pageAlloc :=
  if c.empty then (c, p)
  else
    let ci := chunkIndex c.base
    let pi := chunkPageIndex c.base
    let chunk := p.chunks ci
    let bm := (List.range 64).foldl (flushStep c pi) (chunk.pallocBits, chunk.scavenged)
    let sa := if c.base < p.searchAddr then c.base else p.searchAddr
    (⟨0, 0, 0⟩, { p with chunks := setChunk p.chunks ci ⟨bm.1, bm.2⟩, searchAddr := sa })

/- ------------------------------------------------------------------ -/
/- The fixed-size slab allocator (src/src/runtime/mfixalloc.go). -/

/-- The hard per-chunk size ceiling `_FixAllocChunk` (16 KiB). -/
def FixAllocChunk : Nat := 16 * 1024

/-- Size of an `mlink` free-list node (one 64-bit pointer). -/
def mlinkSize : Nat := 8

/-- fixalloc state (mfixalloc.go).  The free list is embedded as the list of
freed addresses (Go threads it through the first word of each object);
`hasFirst` records whether a first-touch callback is registered
(`f.first != nil`); `sys` together with `nsys` models `persistentalloc`,
yielding the base address of each successive fresh chunk. -/
structure fixalloc where
  size : Nat
  hasFirst : Bool
  list : List Nat
  chunk : Nat
  nchunk : Nat
  nalloc : Nat
  inuse : Nat
  zero : Bool
  sys : Nat → Nat
  nsys : Nat

/-- fixalloc.init (mfixalloc.go lines 69-87): fix the object size, enforce
the chunk ceiling (`none` models `throw("runtime: fixalloc size too
large")`), raise the size to the free-list link size, and compute the chunk
size as the largest multiple of `size` not exceeding the ceiling. -/
def fixalloc.init (size : Nat) (hasFirst : Bool) (sys : Nat → Nat) :
    Option fixalloc :=
  if FixAllocChunk < size then none
  else
    let size := if size < mlinkSize then mlinkSize else size
    some { size := size, hasFirst := hasFirst, list := [], chunk := 0, nchunk := 0,
           nalloc := FixAllocChunk / size * size, inuse := 0, zero := true,
           sys := sys, nsys := 0 }

/-- fixalloc.alloc (mfixalloc.go lines 90-118): pop the free list when
non-empty, otherwise carve from the current chunk, fetching a fresh chunk
when the remainder is too small.  Returns the address, whether the
first-touch callback fired, and the new state; `none` models the fatal
`throw("runtime: internal error")` on use before init (`size == 0`). -/
def fixalloc.alloc (f : fixalloc) : Option (Nat × Bool × fixalloc) :=
  if f.size = 0 then none
  else
    match f.list with
    | v :: rest =>
      some (v, false, { f with list := rest, inuse := (f.inuse + f.size) % word64 })
    | [] =>
      let g := if f.nchunk < f.size then
          { f with chunk := f.sys f.nsys, nchunk := f.nalloc, nsys := f.nsys + 1 }
        else f
      some (g.chunk, g.hasFirst,
        { g with chunk := g.chunk + g.size, nchunk := g.nchunk - g.size,
                 inuse := (g.inuse + g.size) % word64 })

/-- fixalloc.free (mfixalloc.go lines 121-126): push the object onto the
free list and decrement the in-use counter (`uintptr` subtraction wraps). -/
def fixalloc.free (f : fixalloc) (p : Nat) : fixalloc :=
  { f with inuse := (f.inuse + (word64 - f.size % word64)) % word64, list := p :: f.list }

/-- Fold of `fixalloc.free` over a list of pointers, first element freed
first. -/
def freeAll (f : fixalloc) (ps : List Nat) : fixalloc := ps.foldl fixalloc.free f

/-- Sequence of `k` calls to `fixalloc.alloc`, collecting for each the
returned address and whether the first-touch callback fired. -/
def allocSeq (f : fixalloc) : Nat → Option (List (Nat × Bool) × fixalloc)
  | 0 => some ([], f)
  | k+1 =>
    match f.alloc with
    | none => none
    | some (v, fired, g) =>
      match allocSeq g k with
      | none => none
      | some (l, g2) => some ((v, fired) :: l, g2)

/- ------------------------------------------------------------------ -/
/- Concrete states used by the counterexamples and witnesses. -/

/-- A one-chunk central allocator with every page free, cursor at 0. -/
def pAllFree : pageAlloc :=
  { chunks := fun _ => ⟨0, 0⟩, endIdx := 1, searchAddr := 0 }

/-- A central allocator managing no chunks at all (`endIdx = 0`). -/
def pNoChunks : pageAlloc :=
  { chunks := fun _ => ⟨0, 0⟩, endIdx := 0, searchAddr := 0 }

/-- A one-chunk central allocator with every page allocated, cursor at 0. -/
def pAllUsed : pageAlloc :=
  { chunks := fun _ => ⟨maskChunk, 0⟩, endIdx := 1, searchAddr := 0 }

/-- A one-chunk, all-free central allocator whose cursor sits one page in. -/
def pCursorOne : pageAlloc :=
  { chunks := fun _ => ⟨0, 0⟩, endIdx := 1, searchAddr := pageSize }

/-- A small initialized fixed-size allocator used by the witnesses. -/
def F0 : fixalloc :=
  { size := 16, hasFirst := true, list := [], chunk := 4096, nchunk := 16384,
    nalloc := 16384, inuse := 0, zero := true, sys := fun n => 65536 + n * 16384,
    nsys := 0 }

/- ------------------------------------------------------------------ -/
/- Generic facts about the linear scan. -/

theorem scanIdx_ge (p : Nat → Bool) : ∀ (i fuel : Nat), i ≤ scanIdx p i fuel := by
  intro i fuel
  induction fuel generalizing i with
  | zero => simp [scanIdx]
  | succ f ih =>
    simp only [scanIdx]
    split
    · exact Nat.le_refl i
    · exact Nat.le_trans (Nat.le_succ i) (ih (i+1))

theorem scanIdx_le (p : Nat → Bool) : ∀ (i fuel : Nat), scanIdx p i fuel ≤ i + fuel := by
  intro i fuel
  induction fuel generalizing i with
  | zero => simp [scanIdx]
  | succ f ih =>
    simp only [scanIdx]
    split
    · omega
    · have := ih (i+1)
      omega

theorem scanIdx_prop (p : Nat → Bool) :
    ∀ (i fuel : Nat), scanIdx p i fuel < i + fuel → p (scanIdx p i fuel) = true := by
  intro i fuel
  induction fuel generalizing i with
  | zero => intro h; simp only [scanIdx] at h; omega
  | succ f ih =>
    simp only [scanIdx]
    split
    · intro _; assumption
    · intro h
      exact ih (i+1) (by omega)

theorem scanIdx_min (p : Nat → Bool) :
    ∀ (i fuel m : Nat), i ≤ m → m < scanIdx p i fuel → p m = false := by
  intro i fuel
  induction fuel generalizing i with
  | zero =>
    intro m h1 h2
    simp only [scanIdx] at h2
    omega
  | succ f ih =>
    intro m h1 h2
    simp only [scanIdx] at h2
    by_cases hp : p i
    · simp [hp] at h2; omega
    · simp [hp] at h2
      rcases Nat.eq_or_lt_of_le h1 with rfl | hlt
      · exact Bool.eq_false_iff.mpr hp
      · exact ih (i+1) m hlt h2

theorem scanIdx_le_of (p : Nat → Bool) :
    ∀ (i fuel j : Nat), i ≤ j → j < i + fuel → p j = true → scanIdx p i fuel ≤ j := by
  intro i fuel
  induction fuel generalizing i with
  | zero => intro j h1 h2; omega
  | succ f ih =>
    intro j h1 h2 h3
    simp only [scanIdx]
    by_cases hp : p i
    · simp [hp]; omega
    · simp [hp]
      rcases Nat.eq_or_lt_of_le h1 with rfl | hlt
      · exact absurd h3 (Bool.eq_false_iff.mp (Bool.eq_false_iff.mpr hp)).elim
      · exact ih (i+1) j hlt (by omega) h3

/- ------------------------------------------------------------------ -/
/- Facts about the 64-bit helpers. -/

theorem testBit_mask64 (i : Nat) : mask64.testBit i = decide (i < 64) := by
  unfold mask64
  rw [Nat.testBit_two_pow_sub_one]

theorem testBit_maskChunk (i : Nat) : maskChunk.testBit i = decide (i < 512) := by
  unfold maskChunk
  rw [Nat.testBit_two_pow_sub_one]

theorem testBit_andNot64 (x y i : Nat) (hi : i < 64) :
    (andNot64 x y).testBit i = (x.testBit i && !(y.testBit i)) := by
  have h64 : mask64.testBit i = true := by rw [testBit_mask64]; simpa using hi
  simp only [andNot64, Nat.testBit_land, Nat.testBit_xor, h64]
  cases x.testBit i <;> cases y.testBit i <;> rfl

theorem andNot64_le (x y : Nat) : andNot64 x y ≤ x := Nat.and_le_left

theorem testBit_andNotChunk (x y i : Nat) (hi : i < 512) :
    (andNotChunk x y).testBit i = (x.testBit i && !(y.testBit i)) := by
  have h512 : maskChunk.testBit i = true := by rw [testBit_maskChunk]; simpa using hi
  simp only [andNotChunk, Nat.testBit_land, Nat.testBit_xor, h512]
  cases x.testBit i <;> cases y.testBit i <;> rfl

theorem andNotChunk_le (x y : Nat) : andNotChunk x y ≤ x := Nat.and_le_left

theorem testBit_eq_false_of_ge {x n i : Nat} (hx : x < 2 ^ n) (hi : n ≤ i) :
    x.testBit i = false :=
  Nat.testBit_eq_false_of_lt (Nat.lt_of_lt_of_le hx (Nat.pow_le_pow_right (by omega) hi))

theorem eq_zero_of_testBit_lt {x n : Nat} (hx : x < 2 ^ n)
    (h : ∀ i < n, x.testBit i = false) : x = 0 := by
  refine Nat.eq_of_testBit_eq fun i => ?_
  rcases Nat.lt_or_ge i n with hi | hi
  · simp [h i hi]
  · simp [testBit_eq_false_of_ge hx hi]

theorem trailingZeros64_le (x : Nat) : trailingZeros64 x ≤ 64 :=
  scanIdx_le _ 0 64

theorem trailingZeros64_testBit {x : Nat} (h : trailingZeros64 x < 64) :
    x.testBit (trailingZeros64 x) = true :=
  scanIdx_prop _ 0 64 h

theorem trailingZeros64_min {x m : Nat} (h : m < trailingZeros64 x) :
    x.testBit m = false :=
  scanIdx_min _ 0 64 m (Nat.zero_le m) h

theorem trailingZeros64_le_of {x j : Nat} (hj : j < 64) (h : x.testBit j = true) :
    trailingZeros64 x ≤ j :=
  scanIdx_le_of _ 0 64 j (Nat.zero_le j) (by omega) h

theorem trailingZeros64_lt {x : Nat} (hx0 : x ≠ 0) (hx : x < word64) :
    trailingZeros64 x < 64 := by
  by_contra hge
  apply hx0
  apply eq_zero_of_testBit_lt (n := 64) hx
  intro i hi
  exact trailingZeros64_min (by omega)

/-- The mask `((1 <<< n) - 1) <<< i` covers exactly bit positions `[i, i+n)`. -/
theorem testBit_runMask (n i t : Nat) :
    ((((1 <<< n) - 1) <<< i)).testBit t = (decide (i ≤ t) && decide (t < i + n)) := by
  rw [Nat.one_shiftLeft, Nat.testBit_shiftLeft, Nat.testBit_two_pow_sub_one]
  simp only [ge_iff_le]
  by_cases h : i ≤ t
  · rw [decide_eq_true h, Bool.true_and, Bool.true_and, decide_eq_decide]
    omega
  · rw [decide_eq_false h, Bool.false_and, Bool.false_and]

/-- onesCount64 as a filtered count of bit positions. -/
theorem onesCount64_congr (x y : Nat)
    (h : ∀ i < 64, x.testBit i = y.testBit i) : onesCount64 x = onesCount64 y := by
  unfold onesCount64
  congr 1
  apply List.filter_congr
  intro i hi
  exact h i (List.mem_range.mp hi)

/- ------------------------------------------------------------------ -/
/- Unfolding equations for the pageCache operations. -/

theorem shiftRight_and_one (x i : Nat) :
    (x >>> i) &&& 1 = (if x.testBit i then 1 else 0) := by
  rw [Nat.and_one_is_mod, Nat.shiftRight_eq_div_pow, Nat.testBit_to_div_mod]
  rcases Nat.mod_two_eq_zero_or_one (x / 2 ^ i) with h | h <;> simp [h]

theorem alloc_one_eq (c : pageCache) (h : c.cache ≠ 0) :
    c.alloc 1 = ((c.base + trailingZeros64 c.cache * pageSize) % word64,
      ((c.scav >>> trailingZeros64 c.cache) &&& 1) * pageSize,
      { c with cache := andNot64 c.cache (1 <<< trailingZeros64 c.cache),
               scav := andNot64 c.scav (1 <<< trailingZeros64 c.cache) }) := by
  simp [pageCache.alloc, h]

theorem allocN_fail_eq (c : pageCache) (npages : Nat)
    (h : 64 ≤ findBitRange64 c.cache npages) : c.allocN npages = (0, 0, c) := by
  simp [pageCache.allocN, h]

theorem allocN_succ_eq (c : pageCache) (npages : Nat)
    (h : findBitRange64 c.cache npages < 64) :
    c.allocN npages =
      ((c.base + findBitRange64 c.cache npages * pageSize) % word64,
        onesCount64 (c.scav &&& (((1 <<< npages) - 1) <<< findBitRange64 c.cache npages)) * pageSize,
        { c with
          cache := andNot64 c.cache (((1 <<< npages) - 1) <<< findBitRange64 c.cache npages),
          scav := andNot64 c.scav (((1 <<< npages) - 1) <<< findBitRange64 c.cache npages) }) := by
  simp [pageCache.allocN, Nat.not_le.mpr h]

/- Facts about findBitRange64. -/

theorem findBitRange64_le (c n : Nat) : findBitRange64 c n ≤ 64 :=
  scanIdx_le _ 0 64

theorem findBitRange64_run {c n : Nat} (h : findBitRange64 c n < 64) :
    findBitRange64 c n + n ≤ 64 ∧
      ∀ j, j < n → c.testBit (findBitRange64 c n + j) = true := by
  have hp := scanIdx_prop
    (fun i => decide (i + n ≤ 64) && (List.range n).all (fun j => c.testBit (i + j))) 0 64 h
  rw [Bool.and_eq_true, decide_eq_true_eq, List.all_eq_true] at hp
  exact ⟨hp.1, fun j hj => hp.2 j (List.mem_range.mpr hj)⟩

theorem findBitRange64_min {c n i : Nat} (hi : i < findBitRange64 c n)
    (hfit : i + n ≤ 64) : ∃ j, j < n ∧ c.testBit (i + j) = false := by
  have hp := scanIdx_min
    (fun i => decide (i + n ≤ 64) && (List.range n).all (fun j => c.testBit (i + j))) 0 64 i
    (Nat.zero_le i) hi
  rw [Bool.and_eq_false_iff] at hp
  rcases hp with hp | hp
  · rw [decide_eq_false_iff_not] at hp
    omega
  · rcases List.all_eq_false.mp hp with ⟨j, hj, hbit⟩
    exact ⟨j, List.mem_range.mp hj, Bool.not_eq_true _ ▸ (by simpa using hbit)⟩

/- ------------------------------------------------------------------ -/
/- Claims about pageCache.alloc and pageCache.allocN. -/

/-- C1: on a pageCache with a non-zero free bitmap, a one-page allocation
returns `base + i*pageSize` where `i` is the lowest set bit of the free
bitmap, clears both the free and the scavenged bit at `i`, returns
`pageSize` as the scavenged byte count exactly when bit `i` of the
scavenged bitmap was set, and repeated one-page allocations return
addresses at strictly increasing bit indices. -/
theorem C1_alloc_one (c : pageCache) (hne : c.cache ≠ 0) (hlt : c.cache < word64)
    (hbase : c.base + 64 * pageSize < word64) :
    c.cache.testBit (trailingZeros64 c.cache) = true ∧
    (∀ m, m < trailingZeros64 c.cache → c.cache.testBit m = false) ∧
    (c.alloc 1).1 = c.base + trailingZeros64 c.cache * pageSize ∧
    (c.alloc 1).2.1 = (if c.scav.testBit (trailingZeros64 c.cache) then pageSize else 0) ∧
    (c.alloc 1).2.2.base = c.base ∧
    (c.alloc 1).2.2.cache.testBit (trailingZeros64 c.cache) = false ∧
    (c.alloc 1).2.2.scav.testBit (trailingZeros64 c.cache) = false ∧
    ((c.alloc 1).2.2.cache ≠ 0 →
      trailingZeros64 c.cache < trailingZeros64 (c.alloc 1).2.2.cache ∧
      (c.alloc 1).1 < ((c.alloc 1).2.2.alloc 1).1) := by
  have htz : trailingZeros64 c.cache < 64 := trailingZeros64_lt hne hlt
  have hbit1 : ∀ i : Nat, ((1 <<< i) : Nat).testBit i = true := by
    intro i
    simp [Nat.one_shiftLeft, Nat.testBit_two_pow]
  have hmod : (c.base + trailingZeros64 c.cache * pageSize) % word64 =
      c.base + trailingZeros64 c.cache * pageSize := by
    apply Nat.mod_eq_of_lt
    have : trailingZeros64 c.cache * pageSize ≤ 63 * pageSize :=
      Nat.mul_le_mul_right _ (by omega)
    unfold pageSize at *
    unfold word64 at *
    omega
  refine ⟨trailingZeros64_testBit htz, fun m hm => trailingZeros64_min hm, ?_, ?_, ?_, ?_, ?_, ?_⟩
  · rw [alloc_one_eq c hne]
    exact hmod
  · rw [alloc_one_eq c hne]
    rw [shiftRight_and_one]
    split <;> simp
  · rw [alloc_one_eq c hne]
  · rw [alloc_one_eq c hne]
    simp only
    rw [testBit_andNot64 _ _ _ htz, hbit1]
    simp
  · rw [alloc_one_eq c hne]
    simp only
    rw [testBit_andNot64 _ _ _ htz, hbit1]
    simp
  · rw [alloc_one_eq c hne]
    simp only
    intro h0
    have hcc : andNot64 c.cache (1 <<< trailingZeros64 c.cache) < word64 :=
      Nat.lt_of_le_of_lt (andNot64_le _ _) hlt
    have htz2 : trailingZeros64 (andNot64 c.cache (1 <<< trailingZeros64 c.cache)) < 64 :=
      trailingZeros64_lt h0 hcc
    have hgt : trailingZeros64 c.cache <
        trailingZeros64 (andNot64 c.cache (1 <<< trailingZeros64 c.cache)) := by
      by_contra hle
      have hbit := trailingZeros64_testBit htz2
      rw [testBit_andNot64 _ _ _ htz2] at hbit
      rcases Nat.lt_or_ge (trailingZeros64 (andNot64 c.cache (1 <<< trailingZeros64 c.cache)))
          (trailingZeros64 c.cache) with hlt2 | hge2
      · rw [trailingZeros64_min hlt2] at hbit
        simp at hbit
      · have heq : trailingZeros64 (andNot64 c.cache (1 <<< trailingZeros64 c.cache)) =
            trailingZeros64 c.cache := by omega
        rw [heq, hbit1] at hbit
        simp at hbit
    constructor
    · exact hgt
    · rw [alloc_one_eq _ h0]
      simp only
      have hmod2 : (c.base +
          trailingZeros64 (andNot64 c.cache (1 <<< trailingZeros64 c.cache)) * pageSize) % word64 =
          c.base + trailingZeros64 (andNot64 c.cache (1 <<< trailingZeros64 c.cache)) * pageSize := by
        apply Nat.mod_eq_of_lt
        have : trailingZeros64 (andNot64 c.cache (1 <<< trailingZeros64 c.cache)) * pageSize ≤
            63 * pageSize := Nat.mul_le_mul_right _ (by omega)
        unfold pageSize at *
        unfold word64 at *
        omega
      rw [hmod, hmod2]
      have : trailingZeros64 c.cache * pageSize <
          trailingZeros64 (andNot64 c.cache (1 <<< trailingZeros64 c.cache)) * pageSize :=
        Nat.mul_lt_mul_of_lt_of_le hgt (Nat.le_refl _) (by unfold pageSize; omega)
      omega

/-- Witness for C1 at the cache bitmap 38 = 0b100110 (lowest set bit 1). -/
theorem C1_witness :
    (pageCache.alloc ⟨0, 38, 4⟩ 1).1 = 0 + trailingZeros64 38 * pageSize ∧
    trailingZeros64 38 < trailingZeros64 (pageCache.alloc ⟨0, 38, 4⟩ 1).2.2.cache := by
  have h := C1_alloc_one ⟨0, 38, 4⟩ (by decide) (by decide) (by decide)
  exact ⟨h.2.2.1, (h.2.2.2.2.2.2.2 (by decide)).1⟩

/-- C7: on a pageCache whose free bitmap is zero, `empty` reports true and
`alloc` returns the zero address without modifying the cache, for every
requested page count. -/
theorem C7_alloc_empty (c : pageCache) (npages : Nat) (hc : c.cache = 0)
    (hn : 1 ≤ npages) :
    c.empty = true ∧ c.alloc npages = (0, 0, c) := by
  constructor
  · simp [pageCache.empty, hc]
  · simp [pageCache.alloc, hc]

/-- Witness for C7 at an empty cache with non-zero base and scav bits. -/
theorem C7_witness :
    pageCache.alloc ⟨12345, 0, 7⟩ 1 = (0, 0, ⟨12345, 0, 7⟩) :=
  (C7_alloc_empty ⟨12345, 0, 7⟩ 1 rfl (by decide)).2

theorem andNot64_testBit_ge {x y j : Nat} (hx : x < word64) (hj : 64 ≤ j) :
    (andNot64 x y).testBit j = x.testBit j := by
  rw [testBit_eq_false_of_ge (Nat.lt_of_le_of_lt (andNot64_le x y) hx) hj,
    testBit_eq_false_of_ge hx hj]

/-- C2: for `n > 1`, `allocN` finds the lowest-indexed run of `n`
consecutive set bits of the 64-bit free bitmap, fails with the zero address
(and leaves the cache untouched) when no such run exists in the word, and on
success clears the free and scavenged bits of the run and returns
`base + i*pageSize` together with `pageSize` times the number of pages in
the run that were both free and scavenged. -/
theorem C2_allocN (c : pageCache) (n : Nat) (hn : 1 < n) (hcache : c.cache < word64)
    (hbase : c.base + 64 * pageSize < word64) :
    (64 ≤ findBitRange64 c.cache n →
      (∀ i, i + n ≤ 64 → ∃ j, j < n ∧ c.cache.testBit (i + j) = false) ∧
      c.allocN n = (0, 0, c)) ∧
    (findBitRange64 c.cache n < 64 →
      findBitRange64 c.cache n + n ≤ 64 ∧
      (∀ j, j < n → c.cache.testBit (findBitRange64 c.cache n + j) = true) ∧
      (∀ i, i < findBitRange64 c.cache n → i + n ≤ 64 →
        ∃ j, j < n ∧ c.cache.testBit (i + j) = false) ∧
      (c.allocN n).1 = c.base + findBitRange64 c.cache n * pageSize ∧
      (c.allocN n).2.1 =
        pageSize * onesCount64 (c.cache &&& c.scav &&&
          (((1 <<< n) - 1) <<< findBitRange64 c.cache n)) ∧
      (c.allocN n).2.2.base = c.base ∧
      (∀ j, findBitRange64 c.cache n ≤ j → j < findBitRange64 c.cache n + n →
        (c.allocN n).2.2.cache.testBit j = false ∧
        (c.allocN n).2.2.scav.testBit j = false)) := by
  constructor
  · intro hfail
    constructor
    · intro i hi
      have hilt : i < findBitRange64 c.cache n := by omega
      exact findBitRange64_min hilt hi
    · exact allocN_fail_eq c n hfail
  · intro hok
    obtain ⟨hfit, hrun⟩ := findBitRange64_run hok
    refine ⟨hfit, hrun, fun i hi hfi => findBitRange64_min hi hfi, ?_, ?_, ?_, ?_⟩
    · rw [allocN_succ_eq c n hok]
      apply Nat.mod_eq_of_lt
      have : findBitRange64 c.cache n * pageSize ≤ 63 * pageSize :=
        Nat.mul_le_mul_right _ (by omega)
      unfold pageSize at *
      unfold word64 at *
      omega
    · rw [allocN_succ_eq c n hok]
      simp only
      rw [Nat.mul_comm]
      congr 1
      apply onesCount64_congr
      intro t ht
      rw [Nat.testBit_land, Nat.testBit_land, Nat.testBit_land, testBit_runMask]
      by_cases hwin : findBitRange64 c.cache n ≤ t ∧ t < findBitRange64 c.cache n + n
      · have hcbit : c.cache.testBit t = true := by
          have := hrun (t - findBitRange64 c.cache n) (by omega)
          rwa [Nat.add_sub_cancel' hwin.1] at this
        simp [hcbit, hwin.1, hwin.2]
      · rcases Decidable.not_and_iff_or_not.mp hwin with h1 | h1 <;>
          simp [h1] <;> cases c.scav.testBit t <;> cases c.cache.testBit t <;> simp
    · rw [allocN_succ_eq c n hok]
    · intro j hj1 hj2
      rw [allocN_succ_eq c n hok]
      simp only
      have hj64 : j < 64 := by omega
      rw [testBit_andNot64 _ _ _ hj64, testBit_andNot64 _ _ _ hj64, testBit_runMask]
      simp [hj1, hj2]

/-- Witness for C2 at the cache bitmap 12 = 0b1100 (run of two at index 2). -/
theorem C2_witness :
    (pageCache.allocN ⟨0, 12, 6⟩ 2).1 = 0 + findBitRange64 12 2 * pageSize ∧
    (pageCache.allocN ⟨0, 12, 6⟩ 2).2.2.cache.testBit 2 = false := by
  have h := (C2_allocN ⟨0, 12, 6⟩ 2 (by decide) (by decide) (by decide)).2 (by decide)
  exact ⟨h.2.2.2.1, (h.2.2.2.2.2.2 2 (by decide) (by decide)).1⟩

/-- C10: a successful allocation from the page cache leaves the base field
unchanged and only clears the free and scavenged bits of the run it
returns: every bit outside the allocated range is unchanged, both in the
one-page path of `alloc` and in `allocN`. -/
theorem C10_frame (c : pageCache) (n j : Nat) (hcache : c.cache < word64)
    (hscav : c.scav < word64) :
    (c.cache ≠ 0 → j ≠ trailingZeros64 c.cache →
      (c.alloc 1).2.2.base = c.base ∧
      (c.alloc 1).2.2.cache.testBit j = c.cache.testBit j ∧
      (c.alloc 1).2.2.scav.testBit j = c.scav.testBit j) ∧
    (findBitRange64 c.cache n < 64 →
      (j < findBitRange64 c.cache n ∨ findBitRange64 c.cache n + n ≤ j) →
      (c.allocN n).2.2.base = c.base ∧
      (c.allocN n).2.2.cache.testBit j = c.cache.testBit j ∧
      (c.allocN n).2.2.scav.testBit j = c.scav.testBit j) := by
  constructor
  · intro hne hj
    rw [alloc_one_eq c hne]
    refine ⟨rfl, ?_, ?_⟩
    · rcases Nat.lt_or_ge j 64 with hj64 | hj64
      · simp only
        rw [testBit_andNot64 _ _ _ hj64, Nat.one_shiftLeft, Nat.testBit_two_pow]
        simp [Ne.symm hj]
      · exact andNot64_testBit_ge hcache hj64
    · rcases Nat.lt_or_ge j 64 with hj64 | hj64
      · simp only
        rw [testBit_andNot64 _ _ _ hj64, Nat.one_shiftLeft, Nat.testBit_two_pow]
        simp [Ne.symm hj]
      · exact andNot64_testBit_ge hscav hj64
  · intro hok hout
    rw [allocN_succ_eq c n hok]
    refine ⟨rfl, ?_, ?_⟩
    · rcases Nat.lt_or_ge j 64 with hj64 | hj64
      · simp only
        rw [testBit_andNot64 _ _ _ hj64, testBit_runMask]
        rcases hout with h | h <;> simp [h] <;> omega
      · exact andNot64_testBit_ge hcache hj64
    · rcases Nat.lt_or_ge j 64 with hj64 | hj64
      · simp only
        rw [testBit_andNot64 _ _ _ hj64, testBit_runMask]
        rcases hout with h | h <;> simp [h] <;> omega
      · exact andNot64_testBit_ge hscav hj64

/-- Witness for C10 at the cache bitmap 6 = 0b110 and untouched index 10. -/
theorem C10_witness :
    (pageCache.alloc ⟨0, 6, 6⟩ 1).2.2.cache.testBit 10 = (6 : Nat).testBit 10 ∧
    (pageCache.allocN ⟨0, 6, 6⟩ 2).2.2.scav.testBit 10 = (6 : Nat).testBit 10 := by
  have h := C10_frame ⟨0, 6, 6⟩ 2 10 (by decide) (by decide)
  exact ⟨(h.1 (by decide) (by decide)).2.1, (h.2 (by decide) (by decide)).2.2⟩

/- ------------------------------------------------------------------ -/
/- Characterization of the flush loop. -/

theorem testBit_one_shiftLeft (i t : Nat) : ((1 <<< i) : Nat).testBit t = decide (i = t) := by
  rw [Nat.one_shiftLeft, Nat.testBit_two_pow]

theorem flushFold_testBit (c : pageCache) (pi : Nat) (init : Nat × Nat) (n : Nat)
    (t : Nat) (ht : t < 512) :
    (((List.range n).foldl (flushStep c pi) init).1.testBit t =
      (init.1.testBit t &&
        !((decide (pi ≤ t) && decide (t < pi + n)) && c.cache.testBit (t - pi)))) ∧
    (((List.range n).foldl (flushStep c pi) init).2.testBit t =
      (init.2.testBit t ||
        ((decide (pi ≤ t) && decide (t < pi + n)) && c.scav.testBit (t - pi)))) := by
  induction n with
  | zero =>
    constructor <;>
    · simp only [List.range_zero, List.foldl_nil]
      by_cases h : pi ≤ t
      · have h2 : (decide (t < pi + 0)) = false := by
          simp only [decide_eq_false_iff_not]
          omega
        rw [h2]
        simp
      · have h1 : (decide (pi ≤ t)) = false := by
          simp only [decide_eq_false_iff_not]
          omega
        rw [h1]
        simp
  | succ m ih =>
    obtain ⟨ih1, ih2⟩ := ih
    rw [List.range_succ, List.foldl_append, List.foldl_cons, List.foldl_nil]
    constructor
    · show (flushStep c pi _ m).1.testBit t = _
      rw [flushStep]
      simp only
      by_cases hcb : c.cache.testBit m
      · simp only [hcb, if_true]
        rw [free1, testBit_andNotChunk _ _ _ ht, ih1, testBit_one_shiftLeft]
        by_cases he : t = pi + m
        · subst he
          have hsub : pi + m - pi = m := by omega
          simp [hsub, hcb, Nat.le_add_right, Nat.lt_succ_self]
        · have hd : (decide (pi + m = t)) = false := by
            simp only [decide_eq_false_iff_not]
            omega
          rw [hd]
          simp only [Bool.not_false, Bool.and_true]
          have hw : (decide (t < pi + m)) = decide (t < pi + (m + 1)) :=
            decide_eq_decide.mpr (by omega)
          rw [hw]
      · rw [if_neg hcb, ih1]
        by_cases he : t = pi + m
        · subst he
          have hsub : pi + m - pi = m := by omega
          rw [hsub]
          simp [hcb]
        · have hw : (decide (t < pi + m)) = decide (t < pi + (m + 1)) :=
            decide_eq_decide.mpr (by omega)
          rw [hw]
    · show (flushStep c pi _ m).2.testBit t = _
      rw [flushStep]
      simp only
      by_cases hsb : c.scav.testBit m
      · simp only [hsb, if_true]
        rw [setRange1, Nat.testBit_lor, ih2, testBit_one_shiftLeft]
        by_cases he : t = pi + m
        · subst he
          have hsub : pi + m - pi = m := by omega
          simp [hsub, hsb, Nat.le_add_right, Nat.lt_succ_self]
        · have hd : (decide (pi + m = t)) = false := by
            simp only [decide_eq_false_iff_not]
            omega
          rw [hd]
          simp only [Bool.or_false]
          have hw : (decide (t < pi + m)) = decide (t < pi + (m + 1)) :=
            decide_eq_decide.mpr (by omega)
          rw [hw]
      · rw [if_neg hsb, ih2]
        by_cases he : t = pi + m
        · subst he
          have hsub : pi + m - pi = m := by omega
          rw [hsub]
          simp [hsb]
        · have hw : (decide (t < pi + m)) = decide (t < pi + (m + 1)) :=
            decide_eq_decide.mpr (by omega)
          rw [hw]

theorem flush_empty_eq (c : pageCache) (p : pageAlloc) (h : c.cache = 0) :
    c.flush p = (c, p) := by
  simp [pageCache.flush, pageCache.empty, h]

theorem flush_nonempty_eq (c : pageCache) (p : pageAlloc) (h : c.cache ≠ 0) :
    c.flush p =
      (⟨0, 0, 0⟩,
        { p with
          chunks := setChunk p.chunks (chunkIndex c.base)
            ⟨((List.range 64).foldl (flushStep c (chunkPageIndex c.base))
                ((p.chunks (chunkIndex c.base)).pallocBits,
                 (p.chunks (chunkIndex c.base)).scavenged)).1,
             ((List.range 64).foldl (flushStep c (chunkPageIndex c.base))
                ((p.chunks (chunkIndex c.base)).pallocBits,
                 (p.chunks (chunkIndex c.base)).scavenged)).2⟩,
          searchAddr := if c.base < p.searchAddr then c.base else p.searchAddr }) := by
  simp [pageCache.flush, pageCache.empty, h]

/-- A 64-page aligned base sits at a page index that is a multiple of 64
inside its chunk, so the 64 cached pages never cross the chunk boundary. -/
theorem chunkPageIndex_aligned {b : Nat} (h : 64 * pageSize ∣ b) :
    chunkPageIndex b + 64 ≤ 512 := by
  obtain ⟨k, hk⟩ := h
  subst hk
  unfold chunkPageIndex pallocChunkBytes pallocChunkPages pageSize
  omega

/-- C5 (amended): for a cache with a non-zero free bitmap and 64-page
aligned base, flush frees in the central chunk bitmap exactly the pages
whose free bit is set in the cache, marks scavenged exactly the pages whose
scavenged bit is set, leaves every other bit of the chunk and every other
chunk unchanged, and resets the cache to its zero value.  (The amendment:
a cache whose free bitmap is zero is returned unchanged — the code takes
the `empty` early return before touching the central bitmaps.) -/
theorem C5_flush (c : pageCache) (p : pageAlloc) (hne : c.cache ≠ 0)
    (halign : 64 * pageSize ∣ c.base) :
    (c.flush p).1 = (⟨0, 0, 0⟩ : pageCache) ∧
    (∀ i, i < 64 →
      ((c.flush p).2.chunks (chunkIndex c.base)).pallocBits.testBit (chunkPageIndex c.base + i) =
        ((p.chunks (chunkIndex c.base)).pallocBits.testBit (chunkPageIndex c.base + i) &&
          !(c.cache.testBit i)) ∧
      ((c.flush p).2.chunks (chunkIndex c.base)).scavenged.testBit (chunkPageIndex c.base + i) =
        ((p.chunks (chunkIndex c.base)).scavenged.testBit (chunkPageIndex c.base + i) ||
          c.scav.testBit i)) ∧
    (∀ j, j < 512 → (j < chunkPageIndex c.base ∨ chunkPageIndex c.base + 64 ≤ j) →
      ((c.flush p).2.chunks (chunkIndex c.base)).pallocBits.testBit j =
        (p.chunks (chunkIndex c.base)).pallocBits.testBit j ∧
      ((c.flush p).2.chunks (chunkIndex c.base)).scavenged.testBit j =
        (p.chunks (chunkIndex c.base)).scavenged.testBit j) ∧
    (∀ ci, ci ≠ chunkIndex c.base → (c.flush p).2.chunks ci = p.chunks ci) := by
  have hfit := chunkPageIndex_aligned halign
  rw [flush_nonempty_eq c p hne]
  refine ⟨rfl, ?_, ?_, ?_⟩
  · intro i hi
    have ht : chunkPageIndex c.base + i < 512 := by omega
    have hfold := flushFold_testBit c (chunkPageIndex c.base)
      ((p.chunks (chunkIndex c.base)).pallocBits, (p.chunks (chunkIndex c.base)).scavenged)
      64 (chunkPageIndex c.base + i) ht
    have hd1 : (decide (chunkPageIndex c.base ≤ chunkPageIndex c.base + i)) = true := by
      simp
    have hd2 : (decide (chunkPageIndex c.base + i < chunkPageIndex c.base + 64)) = true := by
      simp only [decide_eq_true_eq]
      omega
    have hsub : chunkPageIndex c.base + i - chunkPageIndex c.base = i := by omega
    rw [hd1, hd2, hsub] at hfold
    simp only [Bool.true_and] at hfold
    constructor
    · simp only [setChunk, if_pos rfl]
      exact hfold.1
    · simp only [setChunk, if_pos rfl]
      exact hfold.2
  · intro j hj hout
    have hfold := flushFold_testBit c (chunkPageIndex c.base)
      ((p.chunks (chunkIndex c.base)).pallocBits, (p.chunks (chunkIndex c.base)).scavenged)
      64 j hj
    have hd : (decide (chunkPageIndex c.base ≤ j) &&
        decide (j < chunkPageIndex c.base + 64)) = false := by
      rcases hout with h | h
      · have : ¬ (chunkPageIndex c.base ≤ j) := by omega
        simp [this]
      · have : ¬ (j < chunkPageIndex c.base + 64) := by omega
        simp [this]
    rw [hd] at hfold
    simp only [Bool.false_and, Bool.not_false, Bool.and_true, Bool.or_false] at hfold
    constructor
    · simp only [setChunk, if_pos rfl]
      exact hfold.1
    · simp only [setChunk, if_pos rfl]
      exact hfold.2
  · intro ci hci
    simp [setChunk, hci]

/-- Counterexample to C5 as stated: a cache whose free bitmap is zero but
whose scavenged bitmap is 1 is not flushed at all — the cache keeps its
scavenged bit (it is not reset to the zero value) and the central scavenged
bitmap is not marked. -/
theorem C5_counterexample :
    (pageCache.flush ⟨0, 0, 1⟩ pCursorOne).1 ≠ (⟨0, 0, 0⟩ : pageCache) ∧
    ((pageCache.flush ⟨0, 0, 1⟩ pCursorOne).2.chunks 0).scavenged.testBit 0 = false := by
  constructor
  · decide
  · decide

/-- Witness for the amended C5 at a one-bit cache. -/
theorem C5_witness :
    (pageCache.flush ⟨0, 1, 2⟩ pCursorOne).1 = (⟨0, 0, 0⟩ : pageCache) ∧
    ((pageCache.flush ⟨0, 1, 2⟩ pCursorOne).2.chunks (chunkIndex 0)).scavenged.testBit
        (chunkPageIndex 0 + 1) =
      ((pCursorOne.chunks (chunkIndex 0)).scavenged.testBit (chunkPageIndex 0 + 1) ||
        (2 : Nat).testBit 1) := by
  have h := C5_flush ⟨0, 1, 2⟩ pCursorOne (by decide) (by decide)
  exact ⟨h.1, (h.2.1 1 (by decide)).2⟩

/- ------------------------------------------------------------------ -/
/- Structural equations for allocToCache. -/

theorem allocToCache_oom_eq (p : pageAlloc) (h : p.endIdx ≤ chunkIndex p.searchAddr) :
    p.allocToCache = some (⟨0, 0, 0⟩, p) := by
  simp [pageAlloc.allocToCache, h]

theorem allocToCache_fast_eq (p : pageAlloc)
    (h1 : chunkIndex p.searchAddr < p.endIdx)
    (h2 : chunkHasFree (p.chunks (chunkIndex p.searchAddr)) = true)
    (h3 : find1 (p.chunks (chunkIndex p.searchAddr)).pallocBits
        (chunkPageIndex p.searchAddr) < pallocChunkPages) :
    p.allocToCache = some (allocToCacheFinish p (chunkIndex p.searchAddr)
      { base := (chunkBase (chunkIndex p.searchAddr) +
          alignDown (find1 (p.chunks (chunkIndex p.searchAddr)).pallocBits
            (chunkPageIndex p.searchAddr)) 64 * pageSize) % word64,
        cache := mask64 ^^^ pages64 (p.chunks (chunkIndex p.searchAddr)).pallocBits
          (find1 (p.chunks (chunkIndex p.searchAddr)).pallocBits (chunkPageIndex p.searchAddr)),
        scav := block64 (p.chunks (chunkIndex p.searchAddr)).scavenged
          (find1 (p.chunks (chunkIndex p.searchAddr)).pallocBits
            (chunkPageIndex p.searchAddr)) }) := by
  rw [pageAlloc.allocToCache]
  rw [if_neg (by omega), if_pos h2, if_pos h3]

theorem allocToCache_slow_fail_eq (p : pageAlloc)
    (h1 : chunkIndex p.searchAddr < p.endIdx)
    (h2 : chunkHasFree (p.chunks (chunkIndex p.searchAddr)) = false)
    (h3 : findOneAddr p = 0) :
    p.allocToCache = some (⟨0, 0, 0⟩, { p with searchAddr := maxSearchAddr }) := by
  rw [pageAlloc.allocToCache]
  rw [if_neg (by omega), if_neg (by simp [h2]), if_pos h3]

theorem allocToCache_slow_succ_eq (p : pageAlloc)
    (h1 : chunkIndex p.searchAddr < p.endIdx)
    (h2 : chunkHasFree (p.chunks (chunkIndex p.searchAddr)) = false)
    (h3 : findOneAddr p ≠ 0) :
    p.allocToCache = some (allocToCacheFinish p (chunkIndex (findOneAddr p))
      { base := alignDown (findOneAddr p) (64 * pageSize) % word64,
        cache := mask64 ^^^ pages64 (p.chunks (chunkIndex (findOneAddr p))).pallocBits
          (chunkPageIndex (findOneAddr p)),
        scav := block64 (p.chunks (chunkIndex (findOneAddr p))).scavenged
          (chunkPageIndex (findOneAddr p)) }) := by
  rw [pageAlloc.allocToCache]
  rw [if_neg (by omega), if_neg (by simp [h2]), if_neg h3]

theorem findOneAddr_spec (p : pageAlloc) (h : findOneAddr p ≠ 0) :
    p.searchAddr ≤ findOneAddr p ∧
    findOneAddr p < p.endIdx * pallocChunkPages * pageSize ∧
    pageSize ∣ findOneAddr p := by
  revert h
  unfold findOneAddr
  cases hfind : List.find?
      (fun k => decide (p.searchAddr ≤ k * pageSize) &&
        !((p.chunks (k / pallocChunkPages)).pallocBits.testBit (k % pallocChunkPages)))
      (List.range (p.endIdx * pallocChunkPages)) with
  | none => intro h; exact absurd rfl h
  | some k =>
    intro _
    have hp := List.find?_some hfind
    rw [Bool.and_eq_true, decide_eq_true_eq] at hp
    have hmem := List.mem_range.mp (List.mem_of_find?_eq_some hfind)
    refine ⟨hp.1, ?_, ⟨k, Nat.mul_comm _ _⟩⟩
    exact Nat.mul_lt_mul_of_lt_of_le hmem (Nat.le_refl _) (by unfold pageSize; omega)

theorem allocToCache_throw_eq (p : pageAlloc)
    (h1 : chunkIndex p.searchAddr < p.endIdx)
    (h2 : chunkHasFree (p.chunks (chunkIndex p.searchAddr)) = true)
    (h3 : ¬ find1 (p.chunks (chunkIndex p.searchAddr)).pallocBits
        (chunkPageIndex p.searchAddr) < pallocChunkPages) :
    p.allocToCache = none := by
  rw [pageAlloc.allocToCache]
  rw [if_neg (by omega), if_pos h2, if_neg h3]

theorem finish_fst (p : pageAlloc) (ci : Nat) (cc : pageCache) :
    (allocToCacheFinish p ci cc).1 = cc := rfl

theorem finish_searchAddr_eq (p : pageAlloc) (ci : Nat) (cc : pageCache)
    (hsmall : cc.base + 64 * pageSize < word64) :
    (allocToCacheFinish p ci cc).2.searchAddr = cc.base + 63 * pageSize := by
  show (cc.base + pageSize * (pageCachePages - 1)) % word64 = cc.base + 63 * pageSize
  rw [Nat.mod_eq_of_lt (by unfold pageSize pageCachePages word64 at *; omega)]
  unfold pageSize pageCachePages
  omega

theorem chunkPageIndex_lt (a : Nat) : chunkPageIndex a < 512 := by
  unfold chunkPageIndex pallocChunkBytes pallocChunkPages pageSize
  omega

theorem find1_le (bm sIdx : Nat) (h : sIdx < 512) : find1 bm sIdx ≤ 512 := by
  have h1 := scanIdx_le (fun j => !(bm.testBit j)) (alignDown sIdx 64)
    (pallocChunkPages - alignDown sIdx 64)
  have h2 : alignDown sIdx 64 ≤ sIdx := Nat.div_mul_le_self _ _
  unfold find1
  unfold pallocChunkPages at *
  omega

theorem find1_ge (bm sIdx : Nat) : alignDown sIdx 64 ≤ find1 bm sIdx :=
  scanIdx_ge _ _ _

theorem fast_base_le (p : pageAlloc) (hend : p.endIdx ≤ 2 ^ 26)
    (h1 : chunkIndex p.searchAddr < p.endIdx) :
    (chunkBase (chunkIndex p.searchAddr) +
        alignDown (find1 (p.chunks (chunkIndex p.searchAddr)).pallocBits
          (chunkPageIndex p.searchAddr)) 64 * pageSize) % word64 +
      64 * pageSize < word64 := by
  have hci : chunkIndex p.searchAddr < 2 ^ 26 := Nat.lt_of_lt_of_le h1 hend
  have hf := find1_le (p.chunks (chunkIndex p.searchAddr)).pallocBits
    (chunkPageIndex p.searchAddr) (chunkPageIndex_lt _)
  have hB : alignDown (find1 (p.chunks (chunkIndex p.searchAddr)).pallocBits
      (chunkPageIndex p.searchAddr)) 64 ≤
      find1 (p.chunks (chunkIndex p.searchAddr)).pallocBits (chunkPageIndex p.searchAddr) :=
    Nat.div_mul_le_self _ _
  have hcb : chunkBase (chunkIndex p.searchAddr) =
      chunkIndex p.searchAddr * pallocChunkBytes := rfl
  have hmle : (chunkBase (chunkIndex p.searchAddr) +
      alignDown (find1 (p.chunks (chunkIndex p.searchAddr)).pallocBits
        (chunkPageIndex p.searchAddr)) 64 * pageSize) % word64 ≤
      chunkBase (chunkIndex p.searchAddr) +
      alignDown (find1 (p.chunks (chunkIndex p.searchAddr)).pallocBits
        (chunkPageIndex p.searchAddr)) 64 * pageSize := Nat.mod_le _ _
  unfold pallocChunkBytes pallocChunkPages pageSize word64 at *
  omega

theorem slow_base_le (p : pageAlloc) (hend : p.endIdx ≤ 2 ^ 26) (h3 : findOneAddr p ≠ 0) :
    alignDown (findOneAddr p) (64 * pageSize) % word64 + 64 * pageSize < word64 := by
  obtain ⟨-, hlt, -⟩ := findOneAddr_spec p h3
  have h1 : alignDown (findOneAddr p) (64 * pageSize) ≤ findOneAddr p :=
    Nat.div_mul_le_self _ _
  have h2 : alignDown (findOneAddr p) (64 * pageSize) % word64 ≤
      alignDown (findOneAddr p) (64 * pageSize) := Nat.mod_le _ _
  have h4 : p.endIdx * pallocChunkPages * pageSize ≤ 2 ^ 26 * pallocChunkPages * pageSize :=
    Nat.mul_le_mul_right _ (Nat.mul_le_mul_right _ hend)
  unfold pallocChunkPages pageSize word64 at *
  omega

/-- C3 (amended): a successful `allocToCache` returning a non-empty cache
with base `b` sets `searchAddr` to `b + 63*pageSize` — the address of the
LAST page of the returned 64-page window, kept inside mapped memory, not the
first address after the window. -/
theorem C3_searchAddr (p : pageAlloc) (c : pageCache) (q : pageAlloc)
    (hend : p.endIdx ≤ 2 ^ 26) (h : p.allocToCache = some (c, q)) (hne : c.cache ≠ 0) :
    q.searchAddr = c.base + 63 * pageSize := by
  by_cases hoom : p.endIdx ≤ chunkIndex p.searchAddr
  · rw [allocToCache_oom_eq p hoom] at h
    simp only [Option.some.injEq, Prod.mk.injEq] at h
    obtain ⟨hc, -⟩ := h
    rw [← hc] at hne
    simp at hne
  · push_neg at hoom
    by_cases hfree : chunkHasFree (p.chunks (chunkIndex p.searchAddr)) = true
    · by_cases hf1 : find1 (p.chunks (chunkIndex p.searchAddr)).pallocBits
          (chunkPageIndex p.searchAddr) < pallocChunkPages
      · rw [allocToCache_fast_eq p hoom hfree hf1] at h
        have hcq := Option.some.inj h
        have hc := congrArg Prod.fst hcq
        have hq := congrArg Prod.snd hcq
        simp only at hc hq
        rw [← hq, ← hc, finish_fst]
        exact finish_searchAddr_eq _ _ _ (fast_base_le p hend hoom)
      · rw [allocToCache_throw_eq p hoom hfree hf1] at h
        exact absurd h (by simp)
    · have hfree2 : chunkHasFree (p.chunks (chunkIndex p.searchAddr)) = false := by
        simpa using hfree
      by_cases haddr : findOneAddr p = 0
      · rw [allocToCache_slow_fail_eq p hoom hfree2 haddr] at h
        simp only [Option.some.injEq, Prod.mk.injEq] at h
        obtain ⟨hc, -⟩ := h
        rw [← hc] at hne
        simp at hne
      · rw [allocToCache_slow_succ_eq p hoom hfree2 haddr] at h
        have hcq := Option.some.inj h
        have hc := congrArg Prod.fst hcq
        have hq := congrArg Prod.snd hcq
        simp only at hc hq
        rw [← hq, ← hc, finish_fst]
        exact finish_searchAddr_eq _ _ _ (slow_base_le p hend haddr)

/-- Counterexample to C3 as stated: on a fresh all-free one-chunk allocator
the refill returns the non-empty cache at base 0 but sets `searchAddr` to
`63*pageSize`, not to `base + 64*pageSize`. -/
theorem C3_counterexample :
    (pageAlloc.allocToCache pAllFree).map
        (fun r => (r.1.base, r.1.cache, r.2.searchAddr)) =
      some (0, mask64, 63 * pageSize) ∧
    63 * pageSize ≠ 0 + 64 * pageSize := by
  constructor
  · decide
  · decide

/-- Witness for the amended C3: the refill on the all-free allocator obeys
`searchAddr = base + 63*pageSize`. -/
theorem C3_witness :
    (pageAlloc.allocToCache pAllFree).map (fun r => r.2.searchAddr) =
      (pageAlloc.allocToCache pAllFree).map (fun r => r.1.base + 63 * pageSize) := by
  cases hcp : pageAlloc.allocToCache pAllFree with
  | none => rfl
  | some r =>
    have hm : (pageAlloc.allocToCache pAllFree).map (fun r => r.1.cache) =
        some mask64 := by decide
    rw [hcp] at hm
    simp only [Option.map] at hm
    have hcache : r.1.cache ≠ 0 := by
      rw [Option.some.inj hm]
      decide
    have hsome : pageAlloc.allocToCache pAllFree = some (r.1, r.2) := hcp
    have hsa := C3_searchAddr pAllFree r.1 r.2 (by decide) hsome hcache
    simp [hsa]

/-- C4 (amended): on slow-path exhaustion (no free page at the cursor chunk
and the full search fails) `allocToCache` returns the empty cache AND pins
`searchAddr` to the sentinel maximum, which short-circuits every subsequent
call as long as `endIdx ≤ 2^26 - 1`; on the immediate short-circuit path
(`chunkIndex searchAddr ≥ endIdx`) it returns the empty cache but leaves
the state — including `searchAddr` — unchanged. -/
theorem C4_exhaustion (p : pageAlloc) :
    (p.endIdx ≤ chunkIndex p.searchAddr → p.allocToCache = some (⟨0, 0, 0⟩, p)) ∧
    (chunkIndex p.searchAddr < p.endIdx →
      chunkHasFree (p.chunks (chunkIndex p.searchAddr)) = false →
      findOneAddr p = 0 →
      p.allocToCache = some (⟨0, 0, 0⟩, { p with searchAddr := maxSearchAddr }) ∧
      (p.endIdx ≤ 2 ^ 26 - 1 →
        pageAlloc.allocToCache { p with searchAddr := maxSearchAddr } =
          some (⟨0, 0, 0⟩, { p with searchAddr := maxSearchAddr }))) := by
  constructor
  · exact allocToCache_oom_eq p
  · intro h1 h2 h3
    refine ⟨allocToCache_slow_fail_eq p h1 h2 h3, ?_⟩
    intro hend
    apply allocToCache_oom_eq
    show p.endIdx ≤ chunkIndex maxSearchAddr
    have : chunkIndex maxSearchAddr = 2 ^ 26 - 1 := by decide
    omega

/-- Counterexample to C4 as stated: with no chunks managed (`endIdx = 0`)
the immediate short-circuit returns an empty cache yet `searchAddr` stays 0,
not the sentinel maximum. -/
theorem C4_counterexample :
    (pageAlloc.allocToCache pNoChunks).map
        (fun r => (r.1.base, r.1.cache, r.1.scav, r.2.searchAddr)) =
      some (0, 0, 0, 0) ∧
    (0 : Nat) ≠ maxSearchAddr := by
  constructor
  · decide
  · decide

/-- Witness for the amended C4: the short-circuit path on `pNoChunks` and
the sentinel-pinning slow path on the fully allocated one-chunk state. -/
theorem C4_witness :
    pageAlloc.allocToCache pNoChunks = some (⟨0, 0, 0⟩, pNoChunks) ∧
    pageAlloc.allocToCache pAllUsed =
      some (⟨0, 0, 0⟩, { pAllUsed with searchAddr := maxSearchAddr }) := by
  constructor
  · exact (C4_exhaustion pNoChunks).1 (by decide)
  · exact ((C4_exhaustion pAllUsed).2 (by decide) (by decide) (by decide)).1

theorem fast_raw_lt (p : pageAlloc) (hend : p.endIdx ≤ 2 ^ 26)
    (h1 : chunkIndex p.searchAddr < p.endIdx) :
    chunkBase (chunkIndex p.searchAddr) +
      alignDown (find1 (p.chunks (chunkIndex p.searchAddr)).pallocBits
        (chunkPageIndex p.searchAddr)) 64 * pageSize < word64 := by
  have hci : chunkIndex p.searchAddr < 2 ^ 26 := Nat.lt_of_lt_of_le h1 hend
  have hf := find1_le (p.chunks (chunkIndex p.searchAddr)).pallocBits
    (chunkPageIndex p.searchAddr) (chunkPageIndex_lt _)
  have hB : alignDown (find1 (p.chunks (chunkIndex p.searchAddr)).pallocBits
      (chunkPageIndex p.searchAddr)) 64 ≤
      find1 (p.chunks (chunkIndex p.searchAddr)).pallocBits (chunkPageIndex p.searchAddr) :=
    Nat.div_mul_le_self _ _
  have hcb : chunkBase (chunkIndex p.searchAddr) =
      chunkIndex p.searchAddr * pallocChunkBytes := rfl
  unfold pallocChunkBytes pallocChunkPages pageSize word64 at *
  omega

theorem slow_raw_lt (p : pageAlloc) (hend : p.endIdx ≤ 2 ^ 26) (h3 : findOneAddr p ≠ 0) :
    alignDown (findOneAddr p) (64 * pageSize) < word64 := by
  obtain ⟨-, hlt, -⟩ := findOneAddr_spec p h3
  have h1 : alignDown (findOneAddr p) (64 * pageSize) ≤ findOneAddr p :=
    Nat.div_mul_le_self _ _
  have h4 : p.endIdx * pallocChunkPages * pageSize ≤ 2 ^ 26 * pallocChunkPages * pageSize :=
    Nat.mul_le_mul_right _ (Nat.mul_le_mul_right _ hend)
  unfold pallocChunkPages pageSize word64 at *
  omega

/-- C6 (amended): `searchAddr` only moves backward on flush and forward on a
successful refill.  Flush never increases it: on a NON-empty cache it becomes
the minimum of the flushed base and the old cursor (an empty cache is
returned without touching the state at all, even when its base is lower);
and a successful `allocToCache` returning a non-empty cache never lowers a
page-aligned cursor. -/
theorem C6_cursor (c : pageCache) (p : pageAlloc) (cc : pageCache) (q : pageAlloc) :
    ((c.flush p).2.searchAddr ≤ p.searchAddr) ∧
    (c.cache ≠ 0 →
      (c.flush p).2.searchAddr =
        if c.base < p.searchAddr then c.base else p.searchAddr) ∧
    (pageSize ∣ p.searchAddr → p.endIdx ≤ 2 ^ 26 →
      p.allocToCache = some (cc, q) → cc.cache ≠ 0 →
      p.searchAddr ≤ q.searchAddr) := by
  refine ⟨?_, ?_, ?_⟩
  · by_cases h : c.cache = 0
    · rw [flush_empty_eq c p h]
    · rw [flush_nonempty_eq c p h]
      dsimp only
      split
      · omega
      · exact Nat.le_refl _
  · intro h
    rw [flush_nonempty_eq c p h]
  · intro hdvd hend h hne
    by_cases hoom : p.endIdx ≤ chunkIndex p.searchAddr
    · rw [allocToCache_oom_eq p hoom] at h
      simp only [Option.some.injEq, Prod.mk.injEq] at h
      obtain ⟨hc, -⟩ := h
      rw [← hc] at hne
      simp at hne
    · push_neg at hoom
      by_cases hfree : chunkHasFree (p.chunks (chunkIndex p.searchAddr)) = true
      · by_cases hf1 : find1 (p.chunks (chunkIndex p.searchAddr)).pallocBits
            (chunkPageIndex p.searchAddr) < pallocChunkPages
        · rw [allocToCache_fast_eq p hoom hfree hf1] at h
          have hcq := Option.some.inj h
          have hq := congrArg Prod.snd hcq
          simp only at hq
          rw [← hq, finish_searchAddr_eq _ _ _ (fast_base_le p hend hoom)]
          dsimp only
          rw [Nat.mod_eq_of_lt (fast_raw_lt p hend hoom)]
          obtain ⟨t, ht⟩ := hdvd
          have hge := find1_ge (p.chunks (chunkIndex p.searchAddr)).pallocBits
            (chunkPageIndex p.searchAddr)
          have e1 : chunkIndex p.searchAddr = p.searchAddr / pallocChunkBytes := rfl
          have e2 : chunkPageIndex p.searchAddr =
            p.searchAddr % pallocChunkBytes / pageSize := rfl
          have e3 : chunkBase (chunkIndex p.searchAddr) =
            chunkIndex p.searchAddr * pallocChunkBytes := rfl
          have e4 : alignDown (find1 (p.chunks (chunkIndex p.searchAddr)).pallocBits
              (chunkPageIndex p.searchAddr)) 64 =
            find1 (p.chunks (chunkIndex p.searchAddr)).pallocBits
              (chunkPageIndex p.searchAddr) / 64 * 64 := rfl
          have e5 : alignDown (chunkPageIndex p.searchAddr) 64 =
            chunkPageIndex p.searchAddr / 64 * 64 := rfl
          rw [e5] at hge
          unfold pallocChunkBytes pallocChunkPages pageSize at *
          omega
        · rw [allocToCache_throw_eq p hoom hfree hf1] at h
          exact absurd h (by simp)
      · have hfree2 : chunkHasFree (p.chunks (chunkIndex p.searchAddr)) = false := by
          simpa using hfree
        by_cases haddr : findOneAddr p = 0
        · rw [allocToCache_slow_fail_eq p hoom hfree2 haddr] at h
          simp only [Option.some.injEq, Prod.mk.injEq] at h
          obtain ⟨hc, -⟩ := h
          rw [← hc] at hne
          simp at hne
        · rw [allocToCache_slow_succ_eq p hoom hfree2 haddr] at h
          have hcq := Option.some.inj h
          have hq := congrArg Prod.snd hcq
          simp only at hq
          rw [← hq, finish_searchAddr_eq _ _ _ (slow_base_le p hend haddr)]
          dsimp only
          rw [Nat.mod_eq_of_lt (slow_raw_lt p hend haddr)]
          obtain ⟨hsa_le, hlt, hpdvd⟩ := findOneAddr_spec p haddr
          have e6 : alignDown (findOneAddr p) (64 * pageSize) =
            findOneAddr p / (64 * pageSize) * (64 * pageSize) := rfl
          obtain ⟨k, hk⟩ := hpdvd
          unfold pageSize at *
          omega

/-- Counterexample to C6 as stated: flushing the zero-value (empty) cache
whose base 0 is lower than the cursor does not pull the cursor down to the
base — the state is returned unchanged. -/
theorem C6_counterexample :
    (pageCache.flush ⟨0, 0, 0⟩ pCursorOne).2.searchAddr = pageSize ∧
    (0 : Nat) < pageSize ∧ pageSize ≠ (0 : Nat) := by
  refine ⟨by decide, by decide, by decide⟩

/-- Witness for the amended C6: flush of a non-empty cache takes the
minimum, and the refill on the all-free allocator does not lower the
cursor. -/
theorem C6_witness :
    (pageCache.flush ⟨0, 1, 0⟩ pCursorOne).2.searchAddr =
      (if (⟨0, 1, 0⟩ : pageCache).base < pCursorOne.searchAddr
        then (⟨0, 1, 0⟩ : pageCache).base else pCursorOne.searchAddr) ∧
    (pageAlloc.allocToCache pAllFree).map
        (fun r => decide (pAllFree.searchAddr ≤ r.2.searchAddr)) = some true := by
  constructor
  · exact (C6_cursor ⟨0, 1, 0⟩ pCursorOne ⟨0, 0, 0⟩ pCursorOne).2.1 (by decide)
  · cases hcp : pageAlloc.allocToCache pAllFree with
    | none =>
      have hs : (pageAlloc.allocToCache pAllFree).isSome = true := by decide
      rw [hcp] at hs
      simp at hs
    | some r =>
      have hm : (pageAlloc.allocToCache pAllFree).map (fun r => r.1.cache) =
          some mask64 := by decide
      rw [hcp] at hm
      simp only [Option.map] at hm
      have hcache : r.1.cache ≠ 0 := by
        rw [Option.some.inj hm]
        decide
      have hsome : pageAlloc.allocToCache pAllFree = some (r.1, r.2) := hcp
      have hle := (C6_cursor ⟨0, 0, 0⟩ pAllFree r.1 r.2).2.2 (by decide) (by decide)
        hsome hcache
      simp [hle]

/- ------------------------------------------------------------------ -/
/- The fixalloc claims. -/

theorem allocSeq_popAll : ∀ (l r : List Nat) (f : fixalloc), f.size ≠ 0 → f.list = l ++ r →
    ∃ u, allocSeq f l.length =
      some (l.map (fun a => (a, false)), { f with list := r, inuse := u }) := by
  intro l
  induction l with
  | nil =>
    intro r f hs hl
    refine ⟨f.inuse, ?_⟩
    simp only [List.nil_append] at hl
    simp only [List.length_nil, allocSeq, List.map_nil]
    cases f
    simp_all
  | cons a l ih =>
    intro r f hs hl
    have hpop : f.alloc = some (a, false,
        { f with list := l ++ r, inuse := (f.inuse + f.size) % word64 }) := by
      simp [fixalloc.alloc, hs, hl]
    obtain ⟨u, hu⟩ := ih r
      { f with list := l ++ r, inuse := (f.inuse + f.size) % word64 } hs rfl
    refine ⟨u, ?_⟩
    show allocSeq f (l.length + 1) = _
    rw [allocSeq, hpop]
    dsimp only
    rw [hu]
    simp

theorem freeAll_facts (ps : List Nat) : ∀ (f : fixalloc),
    (freeAll f ps).list = ps.reverse ++ f.list ∧ (freeAll f ps).size = f.size := by
  induction ps with
  | nil => intro f; simp [freeAll]
  | cons a t ih =>
    intro f
    have he : freeAll f (a :: t) = freeAll (f.free a) t := rfl
    obtain ⟨h1, h2⟩ := ih (f.free a)
    rw [he]
    constructor
    · rw [h1]
      simp [fixalloc.free]
    · rw [h2]
      rfl

/-- C8: from any state of an initialized fixalloc, freeing `k` pointers and
then allocating `k` times returns exactly those `k` addresses in free-list
LIFO order (the reverse of the order in which they were freed), with the
first-touch callback never firing on any of them, and restores the free
list; the callback fires (exactly when one is registered) only on the
chunk-carving path taken when the free list is empty. -/
theorem C8_reuse (f : fixalloc) (ps : List Nat) (h : f.size ≠ 0) :
    ((allocSeq (freeAll f ps) ps.length).map Prod.fst =
      some (ps.reverse.map (fun a => (a, false)))) ∧
    ((allocSeq (freeAll f ps) ps.length).map (fun r => r.2.list) = some f.list) ∧
    (f.list = [] → (f.alloc).map (fun r => r.2.1) = some f.hasFirst) := by
  obtain ⟨hl, hsz⟩ := freeAll_facts ps f
  have hs2 : (freeAll f ps).size ≠ 0 := by rw [hsz]; exact h
  obtain ⟨u, hu⟩ := allocSeq_popAll ps.reverse f.list (freeAll f ps) hs2 hl
  have hlen : ps.reverse.length = ps.length := List.length_reverse _
  refine ⟨?_, ?_, ?_⟩
  · rw [← hlen, hu]
    rfl
  · rw [← hlen, hu]
    rfl
  · intro hnil
    by_cases hch : f.nchunk < f.size <;> simp [fixalloc.alloc, h, hnil, hch]

/-- Witness for C8: two frees then two allocations on an initialized
allocator return the addresses in LIFO order without first touches. -/
theorem C8_witness :
    (allocSeq (freeAll F0 [100, 200]) 2).map Prod.fst =
      some [(200, false), (100, false)] := by
  have h := (C8_reuse F0 [100, 200] (by decide)).1
  simpa using h

/-- C9: `alloc` on an uninitialized allocator (size zero) hits the fatal
branch; `init` with a size above the `_FixAllocChunk` ceiling hits the fatal
branch; conversely `init` with a size within the ceiling succeeds with a
positive object size, and on a state with positive size `alloc` never hits
its fatal branch and both `alloc` and `free` preserve the size, so the
fatal branches stay unreachable. -/
theorem C9_fatal (s : Nat) (hf : Bool) (sys : Nat → Nat) (f g : fixalloc)
    (r : Nat × Bool × fixalloc) (q : Nat) :
    (f.size = 0 → f.alloc = none) ∧
    (FixAllocChunk < s → fixalloc.init s hf sys = none) ∧
    (s ≤ FixAllocChunk → (fixalloc.init s hf sys).isSome = true ∧
      ∀ f0, fixalloc.init s hf sys = some f0 → 0 < f0.size) ∧
    (0 < g.size → g.alloc ≠ none) ∧
    (g.alloc = some r → r.2.2.size = g.size) ∧
    ((g.free q).size = g.size) := by
  refine ⟨?_, ?_, ?_, ?_, ?_, rfl⟩
  · intro h
    simp [fixalloc.alloc, h]
  · intro h
    simp [fixalloc.init, h]
  · intro h
    constructor
    · simp [fixalloc.init, Nat.not_lt.mpr h]
    · intro f0 hf0
      simp only [fixalloc.init, if_neg (Nat.not_lt.mpr h)] at hf0
      rw [← Option.some.inj hf0]
      dsimp only
      split
      · unfold mlinkSize
        omega
      · rename_i h2
        unfold mlinkSize at h2
        omega
  · intro h
    have h0 : ¬ g.size = 0 := by omega
    cases hgl : g.list with
    | nil => simp [fixalloc.alloc, h0, hgl]
    | cons a t => simp [fixalloc.alloc, h0, hgl]
  · intro hr
    by_cases h0 : g.size = 0
    · simp [fixalloc.alloc, h0] at hr
    · cases hgl : g.list with
      | nil =>
        by_cases hch : g.nchunk < g.size <;>
        · simp [fixalloc.alloc, h0, hgl, hch] at hr
          rw [← hr]
      | cons a t =>
        simp [fixalloc.alloc, h0, hgl] at hr
        rw [← hr]

/-- Witness for C9: the uninitialized state fails, a 10000-byte init
succeeds, a 20000-byte init fails. -/
theorem C9_witness :
    fixalloc.alloc { F0 with size := 0 } = none ∧
    fixalloc.init 20000 true (fun _ => 0) = none ∧
    (fixalloc.init 10000 true (fun _ => 0)).isSome = true := by
  refine ⟨?_, ?_, ?_⟩
  · exact (C9_fatal 0 true (fun _ => 0) { F0 with size := 0 } F0 (0, false, F0) 0).1 rfl
  · exact (C9_fatal 20000 true (fun _ => 0) F0 F0 (0, false, F0) 0).2.1 (by decide)
  · exact ((C9_fatal 10000 true (fun _ => 0) F0 F0 (0, false, F0) 0).2.2.1 (by decide)).1
